import Mathlib

/-!
Verification of the translation-decision and post-processing pipeline of the
croissant-excel-translate application (src/App.tsx), embedded shallowly.

JS strings are modelled as `List Char` (one entry per code point).  The
inference engine is abstracted as a function `gw : List Char → Option (List Char)`
mapping a paragraph to the streamed completion text; `none` models an exception
thrown during the call.  Engine availability is a boolean `engineOk`
(`false` models `loadEngine` throwing).  Sheet cells are `JSVal`
(undefined, number, or string); numbers are modelled as integers, whose JS
textual form is their decimal representation.
-/

namespace CroissantXl

/-- ASCII digit `0`-`9`. -/
def isAsciiDigit (c : Char) : Bool := '0' ≤ c && c ≤ '9'

/-- Hexadecimal digit. -/
def isHexDigitB (c : Char) : Bool :=
  isAsciiDigit c || ('a' ≤ c && c ≤ 'f') || ('A' ≤ c && c ≤ 'F')

/-- Octal digit. -/
def isOctDigitB (c : Char) : Bool := '0' ≤ c && c ≤ '7'

/-- Binary digit. -/
def isBinDigitB (c : Char) : Bool := c = '0' || c = '1'

/-- The character set matched by the JavaScript regex class `\s` (and,
coextensively, the white space accepted by `Number()` string coercion):
tab, LF, VT, FF, CR, space, NBSP, Ogham space, the U+2000-U+200A range,
LS, PS, NNBSP, MMSP, ideographic space and the BOM. -/
def isJsSpace (c : Char) : Bool :=
  let n := c.toNat
  n = 9 || n = 10 || n = 11 || n = 12 || n = 13 || n = 32 ||
  n = 160 || n = 5760 || (8192 ≤ n && n ≤ 8202) || n = 8232 || n = 8233 ||
  n = 8239 || n = 8287 || n = 12288 || n = 65279

/-- The JavaScript word-character class `\w` (no `u` flag): `[A-Za-z0-9_]`. -/
def isWordChar (c : Char) : Bool :=
  ('A' ≤ c && c ≤ 'Z') || ('a' ≤ c && c ≤ 'z') || isAsciiDigit c || c = '_'

/-- One character of the class `[0-9\s\W]` from the regex at App.tsx:155. -/
def symbolClassChar (c : Char) : Bool :=
  isAsciiDigit c || isJsSpace c || !isWordChar c

/-- The test `/^[0-9\s\W]+$/.test s` from App.tsx:155: non-empty and every
character is a digit, whitespace, or a non-word character. -/
def onlySymbolClass (s : List Char) : Bool :=
  !s.isEmpty && s.all symbolClassChar

/-- One character matched by `/[aeiouy]/i` (App.tsx:160); `Char.toLower`
only lowers ASCII letters, matching the regex's ASCII case folding. -/
def isVowelChar (c : Char) : Bool :=
  let d := c.toLower
  d = 'a' || d = 'e' || d = 'i' || d = 'o' || d = 'u' || d = 'y'

/-- The test `/[aeiouy]/i.test s`. -/
def hasVowel (s : List Char) : Bool := s.any isVowelChar

/-- An exponent part `[eE][+-]?digits` that must consume the whole list. -/
def matchExpTail (l : List Char) : Bool :=
  match l with
  | 'e' :: r | 'E' :: r =>
    let r2 := match r with
      | '+' :: r3 => r3
      | '-' :: r3 => r3
      | _ => r
    !r2.isEmpty && r2.all isAsciiDigit
  | _ => false

/-- An unsigned decimal literal of the JS `StrNumericLiteral` grammar:
`Infinity`, `digits [. digits?] [exp]`, or `. digits [exp]`,
consuming the whole list. -/
def matchUnsignedDec (l : List Char) : Bool :=
  l = "Infinity".data ||
  (let ds := l.takeWhile isAsciiDigit
   let rest := l.dropWhile isAsciiDigit
   if !ds.isEmpty then
     match rest with
     | [] => true
     | '.' :: r2 =>
       let r3 := r2.dropWhile isAsciiDigit
       r3.isEmpty || matchExpTail r3
     | _ => matchExpTail rest
   else
     match l with
     | '.' :: r2 =>
       let ds2 := r2.takeWhile isAsciiDigit
       let r3 := r2.dropWhile isAsciiDigit
       !ds2.isEmpty && (r3.isEmpty || matchExpTail r3)
     | _ => false)

/-- A non-decimal integer literal: `0x`/`0o`/`0b` followed by at least one
digit of the corresponding base, consuming the whole list. -/
def matchNonDec (l : List Char) : Bool :=
  match l with
  | '0' :: c :: r =>
    ((c = 'x' || c = 'X') && !r.isEmpty && r.all isHexDigitB) ||
    ((c = 'o' || c = 'O') && !r.isEmpty && r.all isOctDigitB) ||
    ((c = 'b' || c = 'B') && !r.isEmpty && r.all isBinDigitB)
  | _ => false

/-- A full `StrNumericLiteral`: a non-decimal literal, or an optionally
signed decimal literal. -/
def matchNumericLit (l : List Char) : Bool :=
  matchNonDec l ||
  (match l with
   | '+' :: r => matchUnsignedDec r
   | '-' :: r => matchUnsignedDec r
   | _ => matchUnsignedDec l)

/-- Strip leading and trailing JS whitespace. -/
def trimJs (l : List Char) : List Char :=
  ((l.dropWhile isJsSpace).reverse.dropWhile isJsSpace).reverse

/-- `!isNaN(Number(s))` (App.tsx:150): after trimming whitespace the string
is empty (coerced to `0`) or is a complete numeric literal. -/
def jsIsNumericString (s : List Char) : Bool :=
  let t := trimJs s
  t.isEmpty || matchNumericLit t

/-- One of the four characters of the regex class `[.,!?]` (App.tsx:241). -/
def isPunctChar (c : Char) : Bool := c = '.' || c = ',' || c = '!' || c = '?'

/-- `/[.,!?]/.test s`. -/
def hasPunct (s : List Char) : Bool := s.any isPunctChar

/-- `str === str.toUpperCase()` (App.tsx:179); the case map is modelled on
the ASCII range, other characters are left unchanged. -/
def isUpperStr (s : List Char) : Bool := s = s.map Char.toUpper

/-- `str === str.toLowerCase()` (App.tsx:180). -/
def isLowerStr (s : List Char) : Bool := s = s.map Char.toLower

/-- App.tsx:228-232: if the assembled output is longer than three times
the input, discard it and substitute the input text. -/
def guardStep (input msg : List Char) : List Char :=
  if msg.length > 3 * input.length then input else msg

/-- App.tsx:234-238: if the whole input was uppercase, uppercase the
output; else if it was lowercase, lowercase it. -/
def caseStep (input m : List Char) : List Char :=
  if isUpperStr input then m.map Char.toUpper
  else if isLowerStr input then m.map Char.toLower
  else m

/-- App.tsx:240-244: if the output contains one of `.,!?` and the input
contains none of them, remove all four characters from the output. -/
def punctStep (input m : List Char) : List Char :=
  if hasPunct m && !hasPunct input then m.filter (fun c => !isPunctChar c)
  else m

/-- The post-processing of App.tsx:228-244, applied to the assembled model
output `msg` for input `input`: length-sanity guard, then case matching,
then spurious-punctuation removal. -/
def postProcess (input msg : List Char) : List Char :=
  punctStep input (caseStep input (guardStep input msg))

/-- `s.split('\n')` (App.tsx:181): list of paragraphs; always non-empty,
the empty string yields `[[]]`. -/
def splitNl : List Char → List (List Char)
  | [] => [[]]
  | c :: cs =>
    if c = '\n' then [] :: splitNl cs
    else
      match splitNl cs with
      | [] => [[c]]
      | p :: ps => (c :: p) :: ps

/-- The paragraph loop of App.tsx:188-226 with the gateway abstracted as
`gw` (`none` = the completion call threw).  Returns the assembled message
(or `none` if a call threw) together with the number of completion calls
made.  An empty paragraph contributes a bare `'\n'` wherever it occurs;
a non-empty paragraph is translated and followed by `'\n'` unless it is
the last paragraph. -/
def assemble (gw : List Char → Option (List Char)) :
    List (List Char) → Option (List Char) × Nat
  | [] => (some [], 0)
  | [p] =>
    if p = [] then (some ['\n'], 0)
    else
      match gw p with
      | none => (none, 1)
      | some t => (some t, 1)
  | p :: q :: ps =>
    if p = [] then
      match assemble gw (q :: ps) with
      | (none, c) => (none, c)
      | (some s, c) => (some ('\n' :: s), c)
    else
      match gw p with
      | none => (none, 1)
      | some t =>
        match assemble gw (q :: ps) with
        | (none, c) => (none, c + 1)
        | (some s, c) => (some (t ++ '\n' :: s), c + 1)

/-- The argument type of `onSend` (App.tsx:145): `string | number`.
Numbers are modelled as integers. -/
inductive Input where
  | num (n : Int)
  | str (s : List Char)
deriving DecidableEq

/-- JS `Number.prototype.toString` restricted to integral values. -/
def jsNumToString (n : Int) : List Char := (toString n).data

/-- The textual form `v.toString()` of an `onSend` argument. -/
def inputToString : Input → List Char
  | .num n => jsNumToString n
  | .str s => s

/-- `s.isEmpty`-style numeric test used by the classifier, rule 2:
`typeof v === 'number' || !isNaN(Number(v))`. -/
def numericValue : Input → Bool
  | .num _ => true
  | .str s => jsIsNumericString s

/-- The error message set at App.tsx:174 (modelled by its fixed prefix). -/
def errEngineMsg : List Char := "Could not load the model because ".data

/-- The error message set at App.tsx:253. -/
def errGenMsg : List Char := "Error. Please try again.".data

/-- Outcome of one `onSend` call: the returned value (`none` = the function
returned `undefined`), the error message surfaced (`some` also means the
generation flag was cleared by the call, via `setIsGenerating(false)`),
and the number of gateway completion calls made. -/
structure SendResult where
  result : Option (List Char)
  errMsg : Option (List Char)
  calls : Nat
deriving DecidableEq

/-- `onSend` (App.tsx:145-256).  In order: the empty-string early return;
the numeric pass-through (returning `v.toString()`); the
digits/whitespace/symbols pass-through; the no-vowel pass-through; then the
translation path: engine loading (`engineOk = false` models a loading
failure: flag cleared, message surfaced, `undefined` returned), the
paragraph loop, and post-processing.  A gateway exception is caught:
`undefined` is returned, the flag cleared and a message surfaced. -/
def onSendF (engineOk : Bool) (gw : List Char → Option (List Char)) :
    Input → SendResult
  | .num n => ⟨some (jsNumToString n), none, 0⟩
  | .str s =>
    if s = [] then ⟨none, none, 0⟩
    else if jsIsNumericString s then ⟨some s, none, 0⟩
    else if onlySymbolClass s then ⟨some s, none, 0⟩
    else if !hasVowel s then ⟨some s, none, 0⟩
    else if !engineOk then ⟨none, some errEngineMsg, 0⟩
    else
      match assemble gw (splitNl s) with
      | (none, c) => ⟨none, some errGenMsg, c⟩
      | (some msg, c) => ⟨some (postProcess s msg), none, c⟩

/-- A spreadsheet cell as produced by `sheet_to_json` with `header: 1`:
absent (`undefined`), numeric, or textual. -/
inductive JSVal where
  | undefined
  | num (n : Int)
  | str (s : List Char)
deriving DecidableEq

/-- JS truthiness of a cell value, as tested by `if (value)` at
App.tsx:311: `undefined`, `0` and `''` are falsy. -/
def truthy : JSVal → Bool
  | .undefined => false
  | .num n => n != 0
  | .str s => !s.isEmpty

/-- Coercion of a (truthy) cell value to the `onSend` argument type. -/
def toInput : JSVal → Input
  | .undefined => .str []
  | .num n => .num n
  | .str s => .str s

/-- The textual form of a cell value, as shown in a translation record. -/
def valueText : JSVal → List Char
  | .undefined => []
  | .num n => jsNumToString n
  | .str s => s

/-- `row[i]` on a JS array: `undefined` past the end. -/
def rowGet (row : List JSVal) (i : Nat) : JSVal := row.getD i .undefined

/-- `row[i] = v` on a JS array: assignment extends the array with
`undefined` holes when `i` is past the end. -/
def rowSet (row : List JSVal) (i : Nat) (v : JSVal) : List JSVal :=
  if i < row.length then row.set i v
  else row ++ List.replicate (i - row.length) .undefined ++ [v]

/-- The effect of one loop body of App.tsx:309-316 on one row: if the
source cell is truthy, write the `onSend` response (or `''` when it is
`undefined`) to the destination cell; otherwise leave the row unchanged. -/
def processRow (engineOk : Bool) (gw : List Char → Option (List Char))
    (srcI dstI : Nat) (row : List JSVal) : List JSVal :=
  if truthy (rowGet row srcI) then
    rowSet row dstI
      (.str ((onSendF engineOk gw (toInput (rowGet row srcI))).result.getD []))
  else row

/-- The translation records appended while processing one row: one record
(input text, output text) when the source cell is truthy, none otherwise. -/
def rowRecs (engineOk : Bool) (gw : List Char → Option (List Char))
    (srcI : Nat) (row : List JSVal) : List (List Char × List Char) :=
  if truthy (rowGet row srcI) then
    [(valueText (rowGet row srcI),
      (onSendF engineOk gw (toInput (rowGet row srcI))).result.getD [])]
  else []

/-- Whether processing this row clears the generation flag (the source
cell is truthy and its `onSend` call surfaced an error). -/
def rowClears (engineOk : Bool) (gw : List Char → Option (List Char))
    (srcI : Nat) (row : List JSVal) : Bool :=
  truthy (rowGet row srcI) &&
    (onSendF engineOk gw (toInput (rowGet row srcI))).errMsg.isSome

/-- The records appended over a list of rows, in processing order. -/
def recsOfRows (engineOk : Bool) (gw : List Char → Option (List Char))
    (srcI : Nat) : List (List JSVal) → List (List Char × List Char)
  | [] => []
  | r :: rs => rowRecs engineOk gw srcI r ++ recsOfRows engineOk gw srcI rs

/-- The mutable state of one `handleFileUpload` run: the grid (`jsonData`),
the translation records appended so far, the generation flag
(`isGeneratingRef.current`, as far as the run itself writes it), the
surfaced error message, and the progress counter (`currentRow`). -/
structure RunState where
  grid : List (List JSVal)
  recs : List (List Char × List Char)
  internal : Bool
  errMsg : Option (List Char)
  currentRow : Nat
deriving DecidableEq

/-- One iteration of the loop body of App.tsx:309-317 at row index `i`. -/
def stepRow (engineOk : Bool) (gw : List Char → Option (List Char))
    (srcI dstI : Nat) (i : Nat) (st : RunState) : RunState :=
  if truthy (rowGet (st.grid.getD i []) srcI) then
    { grid := st.grid.set i (rowSet (st.grid.getD i []) dstI
        (.str ((onSendF engineOk gw
          (toInput (rowGet (st.grid.getD i []) srcI))).result.getD []))),
      recs := st.recs ++ [(valueText (rowGet (st.grid.getD i []) srcI),
        (onSendF engineOk gw
          (toInput (rowGet (st.grid.getD i []) srcI))).result.getD [])],
      internal := st.internal &&
        !(onSendF engineOk gw
          (toInput (rowGet (st.grid.getD i []) srcI))).errMsg.isSome,
      errMsg := if (onSendF engineOk gw
            (toInput (rowGet (st.grid.getD i []) srcI))).errMsg.isSome then
          (onSendF engineOk gw
            (toInput (rowGet (st.grid.getD i []) srcI))).errMsg
        else st.errMsg,
      currentRow := i + 1 }
  else { st with currentRow := i + 1 }

/-- The row loop of App.tsx:305-318, fuel-bounded.  `extFlag i` is the
contribution of external stop signals to the shared flag as read at the
check before row `i` (`false` once a stop signal has landed); the loop
re-reads the flag at every row boundary and also stops once a cell's
`onSend` has cleared it (`st.internal`). -/
def runFrom (engineOk : Bool) (gw : List Char → Option (List Char))
    (extFlag : Nat → Bool) (srcI dstI : Nat) :
    Nat → Nat → RunState → RunState
  | _, 0, st => st
  | i, fuel + 1, st =>
    if i < st.grid.length then
      if extFlag i && st.internal then
        runFrom engineOk gw extFlag srcI dstI (i + 1) fuel
          (stepRow engineOk gw srcI dstI i st)
      else st
    else st

/-- A whole run of `handleFileUpload` over a parsed grid, starting from
the 1-indexed `startRow`; the returned state's grid is what is serialized
into the output workbook after the loop, unconditionally. -/
def runDriver (engineOk : Bool) (gw : List Char → Option (List Char))
    (extFlag : Nat → Bool) (srcI dstI startRow : Nat)
    (grid : List (List JSVal)) : RunState :=
  runFrom engineOk gw extFlag srcI dstI (startRow - 1) grid.length
    ⟨grid, [], true, none, 0⟩

/-- A display/audit translation record of App.tsx:39: input text, output
text and sequence number. -/
structure TRec where
  input : List Char
  output : List Char
  id : Nat
deriving DecidableEq

/-- The state touched by `addTranslation` (App.tsx:63-73): the displayed
record list and the closure variable `nextId`.  `nextId` is declared with
`let nextId = 0` in the component body, so each render (hence each new
file-upload run) starts a fresh closure with `nextId = 0`, while the
record list itself persists across renders. -/
structure TState where
  translations : List TRec
  nextId : Nat
deriving DecidableEq

/-- `addTranslation` (App.tsx:65-73): prepend a record carrying `nextId`
as its sequence number, evict from the back down to 40 entries, and
increment `nextId`. -/
def addTranslation (inp outp : List Char) (st : TState) : TState :=
  { translations := (TRec.mk inp outp st.nextId :: st.translations).take 40,
    nextId := st.nextId + 1 }

/-- A sequence of `addTranslation` calls within one closure instance. -/
def runAdds (calls : List (List Char × List Char)) (st : TState) : TState :=
  match calls with
  | [] => st
  | c :: cs => runAdds cs (addTranslation c.1 c.2 st)

/-- The sequence number the `j`-th call of `calls` (0-based) attaches to
its record: the value of `nextId` after the first `j` calls. -/
def assignedId (st : TState) (calls : List (List Char × List Char))
    (j : Nat) : Nat :=
  (runAdds (calls.take j) st).nextId

/-- The value produced by splitting on newlines and rejoining with the
identity model: the original text, plus one extra newline exactly when the
text is empty or ends with a newline (that is, when the final paragraph of
the split is empty). -/
def rejoinTarget (s : List Char) : List Char :=
  if s.getLast? = some '\n' ∨ s = [] then s ++ ['\n'] else s

/-- A 6-row grid (header plus five data rows) used by the C6 witness. -/
def stopGridW : List (List JSVal) :=
  [[JSVal.str ['h']],
   [JSVal.undefined, JSVal.str ['g', 'o']],
   [JSVal.undefined, JSVal.str ['n', 'o']],
   [JSVal.undefined, JSVal.str ['d', 'o']],
   [JSVal.undefined, JSVal.str ['s', 'o']],
   [JSVal.undefined, JSVal.str ['l', 'o']]]

/-! ## Post-processor lemmas -/

theorem caseStep_self (input : List Char) : caseStep input input = input := by
  unfold caseStep
  by_cases hu : isUpperStr input = true
  · rw [if_pos hu, (of_decide_eq_true hu).symm]
  · rw [if_neg hu]
    by_cases hl : isLowerStr input = true
    · rw [if_pos hl, (of_decide_eq_true hl).symm]
    · rw [if_neg hl]

theorem punctStep_self (input : List Char) : punctStep input input = input := by
  unfold punctStep
  rw [Bool.and_not_self, if_neg (by simp)]

theorem hasPunct_filter (l : List Char) :
    hasPunct (l.filter (fun c => !isPunctChar c)) = false := by
  rw [hasPunct, List.any_eq_false]
  intro x hx
  rw [List.mem_filter] at hx
  simpa using hx.2

theorem punctStep_punct_free (input m : List Char) (h : hasPunct input = false) :
    hasPunct (punctStep input m) = false := by
  unfold punctStep
  by_cases hm : hasPunct m = true
  · rw [h, hm, if_pos (by decide)]
    exact hasPunct_filter m
  · rw [if_neg (by simp [hm]), Bool.eq_false_iff.mpr hm]

/-- C2: if the concatenated model output is longer than three times the
input, the post-processed result is exactly the original input: the guard
substitutes the input, the case-matching step maps it to itself, and the
punctuation step cannot fire because input and output then coincide. -/
theorem postProcess_runaway_restores_input (input msg : List Char)
    (h : msg.length > 3 * input.length) : postProcess input msg = input := by
  unfold postProcess guardStep
  rw [if_pos h, caseStep_self, punctStep_self]

/-- Witness for C2 at input `"ab"` and model output `"ccccccc"`. -/
theorem postProcess_runaway_restores_input_witness :
    ("ccccccc".data.length > 3 * "ab".data.length)
    ∧ postProcess "ab".data "ccccccc".data = "ab".data :=
  ⟨by decide, postProcess_runaway_restores_input "ab".data "ccccccc".data (by decide)⟩

/-- C4: if the input contains none of `.,!?`, the post-processed output
contains none of them either, whatever the model produced: any such
character in the output triggers the stripping branch. -/
theorem postProcess_preserves_punct_free (input msg : List Char)
    (h : hasPunct input = false) :
    hasPunct (postProcess input msg) = false := by
  unfold postProcess
  exact punctStep_punct_free input _ h

/-- Witness for C4 at input `"ab"` and model output `"c.d!"`. -/
theorem postProcess_preserves_punct_free_witness :
    hasPunct "ab".data = false
    ∧ hasPunct (postProcess "ab".data "c.d!".data) = false :=
  ⟨by decide, postProcess_preserves_punct_free "ab".data "c.d!".data (by decide)⟩

/-! ## Split/rejoin lemmas (C1) -/

theorem splitNl_ne_nil (s : List Char) : splitNl s ≠ [] := by
  cases s with
  | nil => simp [splitNl]
  | cons c cs =>
    by_cases hc : c = '\n'
    · simp [splitNl, hc]
    · cases h : splitNl cs with
      | nil => simp [splitNl, hc, h]
      | cons p ps => simp [splitNl, hc, h]

theorem splitNl_eq_single (s : List Char) :
    ∀ q, splitNl s = [q] → q = s ∧ '\n' ∉ s := by
  induction s with
  | nil =>
    intro q h
    simp [splitNl] at h
    simp [h]
  | cons c cs ih =>
    intro q h
    by_cases hc : c = '\n'
    · subst hc
      simp [splitNl] at h
      exact absurd h.2 (splitNl_ne_nil cs)
    · cases hcs : splitNl cs with
      | nil => exact absurd hcs (splitNl_ne_nil cs)
      | cons p ps =>
        rw [splitNl, if_neg hc, hcs] at h
        obtain ⟨h1, h2⟩ := List.cons.inj h
        subst h2
        obtain ⟨hp, hnl⟩ := ih p hcs
        subst hp
        refine ⟨h1.symm, ?_⟩
        simp only [List.mem_cons, not_or]
        exact ⟨fun hx => hc hx.symm, hnl⟩

theorem assemble_id_isSome :
    ∀ l, ((assemble (fun p => some p) l).1).isSome = true
  | [] => rfl
  | [p] => by by_cases hp : p = [] <;> simp [assemble, hp]
  | p :: q :: ps => by
    rcases hA : assemble (fun x => some x) (q :: ps) with ⟨o, n⟩
    have ho : o.isSome = true := by
      have h2 := assemble_id_isSome (q :: ps)
      rw [hA] at h2
      exact h2
    obtain ⟨A, rfl⟩ := Option.isSome_iff_exists.mp ho
    by_cases hp : p = [] <;> simp [assemble, hp, hA]

theorem mem_of_getLast?_eq (l : List Char) (a : Char)
    (h : l.getLast? = some a) : a ∈ l := by
  obtain ⟨hne, rfl⟩ :=
    List.mem_getLast?_eq_getLast (l := l) (by rw [h]; exact Option.mem_some_iff.mpr rfl)
  exact List.getLast_mem hne

theorem rejoinTarget_cons (c : Char) (cs : List Char) (h : cs ≠ []) :
    rejoinTarget (c :: cs) = c :: rejoinTarget cs := by
  obtain ⟨d, t, rfl⟩ := List.exists_cons_of_ne_nil h
  unfold rejoinTarget
  rw [List.getLast?_cons_cons]
  by_cases hg : (d :: t).getLast? = some '\n'
  · simp [hg]
  · simp [hg]

/-- C1 (amended): splitting on `'\n'` and reassembling with the model
replaced by the identity function reproduces the original text exactly
when the text is non-empty and does not end with a newline; an empty text
or a text ending with a newline instead gains one extra trailing newline,
because the loop appends a bare `'\n'` for the empty final paragraph. -/
theorem splitJoin_identity_characterization (s : List Char) :
    (assemble (fun p => some p) (splitNl s)).1 = some (rejoinTarget s) := by
  induction s with
  | nil => decide
  | cons c cs ih =>
    by_cases hc : c = '\n'
    · subst hc
      by_cases hcs : cs = []
      · subst hcs; decide
      · obtain ⟨q, ps, hqs⟩ : ∃ q ps, splitNl cs = q :: ps := by
          cases h : splitNl cs with
          | nil => exact absurd h (splitNl_ne_nil cs)
          | cons q ps => exact ⟨q, ps, rfl⟩
        rcases hA : assemble (fun p => some p) (q :: ps) with ⟨o, n⟩
        have hio : o = some (rejoinTarget cs) := by
          have h2 := ih
          rw [hqs, hA] at h2
          exact h2
        subst hio
        have h1 : splitNl ('\n' :: cs) = [] :: q :: ps := by
          simp [splitNl, hqs]
        rw [h1, rejoinTarget_cons _ _ hcs]
        simp [assemble, hA]
    · obtain ⟨q, ps, hqs⟩ : ∃ q ps, splitNl cs = q :: ps := by
        cases h : splitNl cs with
        | nil => exact absurd h (splitNl_ne_nil cs)
        | cons q ps => exact ⟨q, ps, rfl⟩
      have h1 : splitNl (c :: cs) = (c :: q) :: ps := by
        rw [splitNl, if_neg hc, hqs]
      cases ps with
      | nil =>
        obtain ⟨hq, hnl⟩ := splitNl_eq_single cs q hqs
        rw [hq] at h1
        rw [h1]
        have h2 : (assemble (fun p => some p) [c :: cs]).1 = some (c :: cs) := by
          simp [assemble]
        rw [h2]
        have h3 : rejoinTarget (c :: cs) = c :: cs := by
          unfold rejoinTarget
          rw [if_neg]
          rintro (hg | hg)
          · rcases List.eq_nil_or_concat cs with hnil | ⟨t, d, rfl⟩
            · subst hnil
              simp at hg
              exact hc hg
            · have hgd : (c :: t.concat d).getLast? = some d := by
                rw [List.concat_eq_append, ← List.cons_append, List.getLast?_concat]
              have hd : d = '\n' := Option.some.inj (hgd.symm.trans hg)
              subst hd
              exact hnl (by simp [List.concat_eq_append])
          · exact List.cons_ne_nil c cs hg
        rw [h3]
      | cons r ps2 =>
        have hcsne : cs ≠ [] := by
          intro h0
          rw [h0] at hqs
          simp [splitNl] at hqs
        rcases hA : assemble (fun p => some p) (r :: ps2) with ⟨o, n⟩
        have ho : o.isSome = true := by
          have h2 := assemble_id_isSome (r :: ps2)
          rw [hA] at h2
          exact h2
        obtain ⟨A, rfl⟩ := Option.isSome_iff_exists.mp ho
        have hih : (assemble (fun p => some p) (q :: r :: ps2)).1 =
            some (rejoinTarget cs) := by
          rw [← hqs]
          exact ih
        have hq1 : (assemble (fun p => some p) (q :: r :: ps2)).1 =
            some (q ++ '\n' :: A) := by
          by_cases hq : q = []
          · subst hq; simp [assemble, hA]
          · simp [assemble, hq, hA]
        have htarget : rejoinTarget cs = q ++ '\n' :: A :=
          Option.some.inj (hq1.symm.trans hih).symm
        rw [h1]
        have h2 : (assemble (fun p => some p) ((c :: q) :: r :: ps2)).1 =
            some ((c :: q) ++ '\n' :: A) := by
          simp [assemble, hA]
        rw [h2, rejoinTarget_cons c cs hcsne, htarget]
        simp

/-- C1 (counterexample): for the input text `"a\n"`, which ends with a
newline, split/rejoin with the identity model yields `"a\n\n"`, not the
original text — the empty final paragraph contributes an extra newline. -/
theorem splitJoin_trailing_newline_cex :
    (assemble (fun p => some p) (splitNl "a\n".data)).1 = some "a\n\n".data
    ∧ "a\n\n".data ≠ "a\n".data := by
  constructor
  · decide
  · decide

/-! ## Classifier theorems (C3, C10) -/

/-- C3: for every non-empty value that is a number, or a string whose text
parses fully as a number, `onSend` returns the value's textual form with no
error and zero gateway completion calls (the gateway is never invoked);
the result does not depend on the gateway or on engine availability.
The empty string is excluded: it is caught by the preceding empty-value
rule and skipped before the numeric rule is reached. -/
theorem classifier_numeric_passthrough (engineOk : Bool)
    (gw : List Char → Option (List Char)) (v : Input)
    (hne : v ≠ .str []) (hnum : numericValue v = true) :
    onSendF engineOk gw v = ⟨some (inputToString v), none, 0⟩ := by
  cases v with
  | num n => rfl
  | str s =>
    have hs : ¬ s = [] := fun h => hne (by rw [h])
    have hn : jsIsNumericString s = true := hnum
    simp [onSendF, hs, hn, inputToString]

/-- Witness for C3 at the numeric string `"3.5"`. -/
theorem classifier_numeric_passthrough_witness :
    (Input.str "3.5".data ≠ .str []) ∧ numericValue (.str "3.5".data) = true
    ∧ onSendF true (fun _ => none) (.str "3.5".data)
        = ⟨some (inputToString (.str "3.5".data)), none, 0⟩ :=
  ⟨by decide, by decide,
    classifier_numeric_passthrough true (fun _ => none) (.str "3.5".data)
      (by decide) (by decide)⟩

/-- C10 (counterexample): the string `"été"` is offered by the claim as an
instance of a string consisting solely of digits, whitespace, and
characters outside `[A-Za-z0-9_]`, but its character `'t'` is an ASCII
word character, so `"été"` does not belong to that class (and the regex
`/^[0-9\s\W]+$/` does not match it). -/
theorem symbol_class_example_cex :
    ('t' ∈ "été".data ∧ isWordChar 't' = true)
    ∧ onlySymbolClass "été".data = false := by
  constructor
  · constructor
    · decide
    · decide
  · decide

/-- C10 (amended): every non-empty string all of whose characters are
digits, whitespace, or outside `[A-Za-z0-9_]` — and likewise every
non-empty string containing no ASCII vowel, which is the rule that covers
`"été"` (its accented vowels are not ASCII) — is returned by the
classifier unchanged, with no error and zero gateway calls. -/
theorem classifier_symbolic_or_vowelless_passthrough (engineOk : Bool)
    (gw : List Char → Option (List Char)) (s : List Char)
    (hne : s ≠ [])
    (h : (∀ c ∈ s, symbolClassChar c = true) ∨ hasVowel s = false) :
    onSendF engineOk gw (.str s) = ⟨some s, none, 0⟩ := by
  have hs : ¬ s = [] := hne
  by_cases hn : jsIsNumericString s = true
  · simp [onSendF, hs, hn]
  · rcases h with h | h
    · have hsym : onlySymbolClass s = true := by
        unfold onlySymbolClass
        rw [Bool.and_eq_true]
        refine ⟨by simp [hne], ?_⟩
        rw [List.all_eq_true]
        exact h
      simp [onSendF, hs, hn, hsym]
    · by_cases hsym : onlySymbolClass s = true
      · simp [onSendF, hs, hn, hsym]
      · simp [onSendF, hs, hn, hsym, h]

/-- Witness for the amended C10 at `"été"` (no ASCII vowel). -/
theorem classifier_symbolic_or_vowelless_passthrough_witness :
    ("été".data ≠ []) ∧ hasVowel "été".data = false
    ∧ onSendF true (fun _ => none) (.str "été".data)
        = ⟨some "été".data, none, 0⟩ :=
  ⟨by decide, by decide,
    classifier_symbolic_or_vowelless_passthrough true (fun _ => none)
      "été".data (by decide) (Or.inr (by decide))⟩

/-! ## Row-driver lemmas -/

theorem stepRow_grid_length (E : Bool) (gw : List Char → Option (List Char))
    (srcI dstI i : Nat) (st : RunState) :
    (stepRow E gw srcI dstI i st).grid.length = st.grid.length := by
  unfold stepRow
  by_cases ht : truthy (rowGet (st.grid.getD i []) srcI) = true
  · rw [if_pos ht]
    exact List.length_set ..
  · rw [if_neg ht]

theorem stepRow_grid_ne (E : Bool) (gw : List Char → Option (List Char))
    (srcI dstI i : Nat) (st : RunState) (j : Nat) (hj : j ≠ i) :
    (stepRow E gw srcI dstI i st).grid[j]? = st.grid[j]? := by
  unfold stepRow
  by_cases ht : truthy (rowGet (st.grid.getD i []) srcI) = true
  · rw [if_pos ht]
    exact List.getElem?_set_ne (Ne.symm hj)
  · rw [if_neg ht]

theorem stepRow_grid_self (E : Bool) (gw : List Char → Option (List Char))
    (srcI dstI i : Nat) (st : RunState) (hi : i < st.grid.length) :
    (stepRow E gw srcI dstI i st).grid[i]? =
      some (processRow E gw srcI dstI (st.grid.getD i [])) := by
  unfold stepRow processRow
  by_cases ht : truthy (rowGet (st.grid.getD i []) srcI) = true
  · rw [if_pos ht, if_pos ht]
    exact List.getElem?_set_eq_of_lt _ hi
  · rw [if_neg ht, if_neg ht, List.getElem?_eq_getElem hi,
      List.getD_eq_getElem?_getD, List.getElem?_eq_getElem hi]
    rfl

theorem stepRow_recs (E : Bool) (gw : List Char → Option (List Char))
    (srcI dstI i : Nat) (st : RunState) :
    (stepRow E gw srcI dstI i st).recs =
      st.recs ++ rowRecs E gw srcI (st.grid.getD i []) := by
  unfold stepRow rowRecs
  by_cases ht : truthy (rowGet (st.grid.getD i []) srcI) = true
  · rw [if_pos ht, if_pos ht]
  · rw [if_neg ht, if_neg ht, List.append_nil]

theorem stepRow_internal (E : Bool) (gw : List Char → Option (List Char))
    (srcI dstI i : Nat) (st : RunState) :
    (stepRow E gw srcI dstI i st).internal =
      (st.internal && !rowClears E gw srcI (st.grid.getD i [])) := by
  unfold stepRow rowClears
  by_cases ht : truthy (rowGet (st.grid.getD i []) srcI) = true
  · rw [if_pos ht, ht, Bool.true_and]
  · have ht2 : truthy (rowGet (st.grid.getD i []) srcI) = false :=
      Bool.eq_false_iff.mpr ht
    rw [if_neg ht, ht2, Bool.false_and, Bool.not_false, Bool.and_true]

theorem stepRow_errMsg (E : Bool) (gw : List Char → Option (List Char))
    (srcI dstI i : Nat) (st : RunState) :
    (stepRow E gw srcI dstI i st).errMsg =
      (if rowClears E gw srcI (st.grid.getD i []) = true then
        (onSendF E gw (toInput (rowGet (st.grid.getD i []) srcI))).errMsg
       else st.errMsg) := by
  unfold stepRow rowClears
  by_cases ht : truthy (rowGet (st.grid.getD i []) srcI) = true
  · by_cases he :
      (onSendF E gw (toInput (rowGet (st.grid.getD i []) srcI))).errMsg.isSome = true
    · have hc : (truthy (rowGet (st.grid.getD i []) srcI) &&
          (onSendF E gw (toInput (rowGet (st.grid.getD i []) srcI))).errMsg.isSome)
          = true := by rw [ht, he]; rfl
      rw [if_pos ht, if_pos he, if_pos hc]
    · have hc : ¬ ((truthy (rowGet (st.grid.getD i []) srcI) &&
          (onSendF E gw (toInput (rowGet (st.grid.getD i []) srcI))).errMsg.isSome)
          = true) := by
        rw [ht, Bool.true_and]
        exact he
      rw [if_pos ht, if_neg he, if_neg hc]
  · have ht2 : truthy (rowGet (st.grid.getD i []) srcI) = false :=
      Bool.eq_false_iff.mpr ht
    have hc : ¬ ((truthy (rowGet (st.grid.getD i []) srcI) &&
        (onSendF E gw (toInput (rowGet (st.grid.getD i []) srcI))).errMsg.isSome)
        = true) := by
      rw [ht2, Bool.false_and]
      exact Bool.false_ne_true
    rw [if_neg ht, if_neg hc]

theorem runFrom_internal_false (E : Bool) (gw : List Char → Option (List Char))
    (e : Nat → Bool) (srcI dstI i fuel : Nat) (st : RunState)
    (h : st.internal = false) :
    runFrom E gw e srcI dstI i fuel st = st := by
  cases fuel with
  | zero => rfl
  | succ n =>
    unfold runFrom
    by_cases hi : i < st.grid.length
    · simp [hi, h]
    · simp [hi]

theorem runFrom_grid_lt (E : Bool) (gw : List Char → Option (List Char))
    (e : Nat → Bool) (srcI dstI : Nat) :
    ∀ fuel i (st : RunState) j, j < i →
      (runFrom E gw e srcI dstI i fuel st).grid[j]? = st.grid[j]? := by
  intro fuel
  induction fuel with
  | zero => intro i st j _; rfl
  | succ n ih =>
    intro i st j hj
    unfold runFrom
    by_cases hi : i < st.grid.length
    · by_cases hf : (e i && st.internal) = true
      · rw [if_pos hi, if_pos hf,
          ih (i + 1) (stepRow E gw srcI dstI i st) j (Nat.lt_succ_of_lt hj)]
        exact stepRow_grid_ne E gw srcI dstI i st j (Nat.ne_of_lt hj)
      · simp [hi, hf]
    · simp [hi]

/-- Characterization of an error-free, stop-free run tail: every row from
`i` on is processed, records accumulate in order, the flag stays set and
no error is surfaced. -/
theorem runFrom_clean (E : Bool) (gw : List Char → Option (List Char))
    (srcI dstI : Nat) :
    ∀ fuel i (st : RunState),
      st.internal = true →
      st.grid.length ≤ i + fuel →
      (∀ j, j < st.grid.length → i ≤ j →
        rowClears E gw srcI (st.grid.getD j []) = false) →
      ((∀ j, i ≤ j →
          (runFrom E gw (fun _ => true) srcI dstI i fuel st).grid[j]? =
            (st.grid[j]?).map (processRow E gw srcI dstI))
       ∧ (∀ j, j < i →
          (runFrom E gw (fun _ => true) srcI dstI i fuel st).grid[j]? = st.grid[j]?)
       ∧ (runFrom E gw (fun _ => true) srcI dstI i fuel st).recs =
           st.recs ++ recsOfRows E gw srcI (st.grid.drop i)
       ∧ (runFrom E gw (fun _ => true) srcI dstI i fuel st).internal = true
       ∧ (runFrom E gw (fun _ => true) srcI dstI i fuel st).errMsg = st.errMsg) := by
  intro fuel
  induction fuel with
  | zero =>
    intro i st hint hlen hok
    have h0 : runFrom E gw (fun _ => true) srcI dstI i 0 st = st := rfl
    refine ⟨?_, fun j _ => by rw [h0], ?_, by rw [h0]; exact hint, by rw [h0]⟩
    · intro j hj
      have hnone : st.grid[j]? = none :=
        List.getElem?_eq_none (by omega)
      rw [h0, hnone]
      rfl
    · rw [h0, List.drop_eq_nil_of_le (by omega)]
      rw [recsOfRows, List.append_nil]
  | succ n ih =>
    intro i st hint hlen hok
    by_cases hi : i < st.grid.length
    · have hflag : ((fun _ : Nat => true) i && st.internal) = true := by
        rw [hint]; rfl
      have h0 : runFrom E gw (fun _ => true) srcI dstI i (n + 1) st =
          runFrom E gw (fun _ => true) srcI dstI (i + 1) n
            (stepRow E gw srcI dstI i st) := by
        conv_lhs => unfold runFrom
        rw [if_pos hi, if_pos hflag]
      have hclear : rowClears E gw srcI (st.grid.getD i []) = false :=
        hok i hi (le_refl i)
      have hint2 : (stepRow E gw srcI dstI i st).internal = true := by
        rw [stepRow_internal, hclear, hint]; rfl
      have hlen2 : (stepRow E gw srcI dstI i st).grid.length = st.grid.length :=
        stepRow_grid_length ..
      have hgetD2 : ∀ j, j ≠ i →
          (stepRow E gw srcI dstI i st).grid.getD j [] = st.grid.getD j [] := by
        intro j hj
        rw [List.getD_eq_getElem?_getD, List.getD_eq_getElem?_getD,
          stepRow_grid_ne E gw srcI dstI i st j hj]
      have hok2 : ∀ j, j < (stepRow E gw srcI dstI i st).grid.length → i + 1 ≤ j →
          rowClears E gw srcI ((stepRow E gw srcI dstI i st).grid.getD j []) = false := by
        intro j hjl hij
        rw [hlen2] at hjl
        rw [hgetD2 j (by omega)]
        exact hok j hjl (by omega)
      obtain ⟨ih1, ih2, ih3, ih4, ih5⟩ :=
        ih (i + 1) (stepRow E gw srcI dstI i st) hint2 (by rw [hlen2]; omega) hok2
      rw [h0]
      refine ⟨?_, ?_, ?_, ih4, ?_⟩
      · intro j hij
        rcases Nat.eq_or_lt_of_le hij with rfl | hlt
        · rw [ih2 i (Nat.lt_succ_self i), stepRow_grid_self E gw srcI dstI i st hi,
            List.getElem?_eq_getElem hi, List.getD_eq_getElem?_getD,
            List.getElem?_eq_getElem hi]
          rfl
        · rw [ih1 j hlt, stepRow_grid_ne E gw srcI dstI i st j (by omega)]
      · intro j hj
        rw [ih2 j (by omega), stepRow_grid_ne E gw srcI dstI i st j (by omega)]
      · rw [ih3, stepRow_recs]
        have hdrop : (stepRow E gw srcI dstI i st).grid.drop (i + 1) =
            st.grid.drop (i + 1) := by
          apply List.ext_getElem?
          intro m
          rw [List.getElem?_drop, List.getElem?_drop]
          exact stepRow_grid_ne E gw srcI dstI i st (i + 1 + m) (by omega)
        rw [hdrop, List.append_assoc]
        congr 1
        rw [List.drop_eq_getElem_cons hi, recsOfRows,
          List.getD_eq_getElem?_getD, List.getElem?_eq_getElem hi]
        rfl
      · rw [ih5, stepRow_errMsg,
          if_neg (by rw [hclear]; exact Bool.false_ne_true)]
    · have h0 : runFrom E gw (fun _ => true) srcI dstI i (n + 1) st = st := by
        conv_lhs => unfold runFrom
        rw [if_neg hi]
      refine ⟨?_, fun j _ => by rw [h0], ?_, by rw [h0]; exact hint, by rw [h0]⟩
      · intro j hj
        have hnone : st.grid[j]? = none :=
          List.getElem?_eq_none (by omega)
        rw [h0, hnone]
        rfl
      · rw [h0, List.drop_eq_nil_of_le (by omega)]
        rw [recsOfRows, List.append_nil]

/-- Characterization of a run tail that hits its first flag-clearing cell
at row `t`: rows `i..t` are processed (row `t` included), later rows stay
untouched, the flag ends cleared, the error of row `t`'s `onSend` call is
surfaced, and the last record appended is row `t`'s. -/
theorem runFrom_err (E : Bool) (gw : List Char → Option (List Char))
    (srcI dstI : Nat) :
    ∀ fuel i (st : RunState) t,
      st.internal = true →
      st.grid.length ≤ i + fuel →
      i ≤ t → t < st.grid.length →
      (∀ j, j < t → i ≤ j →
        rowClears E gw srcI (st.grid.getD j []) = false) →
      rowClears E gw srcI (st.grid.getD t []) = true →
      ((∀ j, i ≤ j → j ≤ t →
          (runFrom E gw (fun _ => true) srcI dstI i fuel st).grid[j]? =
            (st.grid[j]?).map (processRow E gw srcI dstI))
       ∧ (∀ j, j < i →
          (runFrom E gw (fun _ => true) srcI dstI i fuel st).grid[j]? = st.grid[j]?)
       ∧ (∀ j, t < j →
          (runFrom E gw (fun _ => true) srcI dstI i fuel st).grid[j]? = st.grid[j]?)
       ∧ (runFrom E gw (fun _ => true) srcI dstI i fuel st).internal = false
       ∧ (runFrom E gw (fun _ => true) srcI dstI i fuel st).errMsg =
           (onSendF E gw (toInput (rowGet (st.grid.getD t []) srcI))).errMsg
       ∧ (runFrom E gw (fun _ => true) srcI dstI i fuel st).recs.getLast? =
           some (valueText (rowGet (st.grid.getD t []) srcI),
             (onSendF E gw (toInput (rowGet (st.grid.getD t []) srcI))).result.getD [])) := by
  intro fuel
  induction fuel with
  | zero =>
    intro i st t _ hlen hit htl _ _
    omega
  | succ n ih =>
    intro i st t hint hlen hit htl hok herr
    have hi : i < st.grid.length := by omega
    have hflag : ((fun _ : Nat => true) i && st.internal) = true := by
      rw [hint]; rfl
    have h0 : runFrom E gw (fun _ => true) srcI dstI i (n + 1) st =
        runFrom E gw (fun _ => true) srcI dstI (i + 1) n
          (stepRow E gw srcI dstI i st) := by
      conv_lhs => unfold runFrom
      rw [if_pos hi, if_pos hflag]
    rcases Nat.eq_or_lt_of_le hit with rfl | hlt
    · -- the failing row is processed right now; afterwards the loop is frozen
      have hint2 : (stepRow E gw srcI dstI i st).internal = false := by
        rw [stepRow_internal, herr, hint]; rfl
      have hfrozen : runFrom E gw (fun _ => true) srcI dstI (i + 1) n
          (stepRow E gw srcI dstI i st) = stepRow E gw srcI dstI i st :=
        runFrom_internal_false E gw (fun _ => true) srcI dstI (i + 1) n
          (stepRow E gw srcI dstI i st) hint2
      rw [h0, hfrozen]
      have htruthy : truthy (rowGet (st.grid.getD i []) srcI) = true := by
        have h2 := herr
        unfold rowClears at h2
        rw [Bool.and_eq_true] at h2
        exact h2.1
      refine ⟨?_, ?_, ?_, hint2, ?_, ?_⟩
      · intro j hij hji
        have hj : j = i := by omega
        subst hj
        rw [stepRow_grid_self E gw srcI dstI j st hi,
          List.getElem?_eq_getElem hi, List.getD_eq_getElem?_getD,
          List.getElem?_eq_getElem hi]
        rfl
      · intro j hj
        exact stepRow_grid_ne E gw srcI dstI i st j (by omega)
      · intro j hj
        exact stepRow_grid_ne E gw srcI dstI i st j (by omega)
      · rw [stepRow_errMsg, if_pos herr]
      · rw [stepRow_recs]
        unfold rowRecs
        rw [if_pos htruthy]
        exact List.getLast?_concat _
    · -- a clean row before the failing one
      have hclear : rowClears E gw srcI (st.grid.getD i []) = false :=
        hok i hlt (le_refl i)
      have hint2 : (stepRow E gw srcI dstI i st).internal = true := by
        rw [stepRow_internal, hclear, hint]; rfl
      have hlen2 : (stepRow E gw srcI dstI i st).grid.length = st.grid.length :=
        stepRow_grid_length ..
      have hgetD2 : ∀ j, j ≠ i →
          (stepRow E gw srcI dstI i st).grid.getD j [] = st.grid.getD j [] := by
        intro j hj
        rw [List.getD_eq_getElem?_getD, List.getD_eq_getElem?_getD,
          stepRow_grid_ne E gw srcI dstI i st j hj]
      have hok2 : ∀ j, j < t → i + 1 ≤ j →
          rowClears E gw srcI ((stepRow E gw srcI dstI i st).grid.getD j []) = false := by
        intro j hjt hij
        rw [hgetD2 j (by omega)]
        exact hok j hjt (by omega)
      have herr2 : rowClears E gw srcI
          ((stepRow E gw srcI dstI i st).grid.getD t []) = true := by
        rw [hgetD2 t (by omega)]
        exact herr
      obtain ⟨ih1, ih2, ih3, ih4, ih5, ih6⟩ :=
        ih (i + 1) (stepRow E gw srcI dstI i st) t hint2 (by rw [hlen2]; omega)
          (by omega) (by rw [hlen2]; exact htl) hok2 herr2
      rw [h0]
      have hback : (stepRow E gw srcI dstI i st).grid.getD t [] = st.grid.getD t [] :=
        hgetD2 t (by omega)
      refine ⟨?_, ?_, ?_, ih4, ?_, ?_⟩
      · intro j hij hjt
        rcases Nat.eq_or_lt_of_le hij with rfl | hlt2
        · rw [ih2 i (Nat.lt_succ_self i), stepRow_grid_self E gw srcI dstI i st hi,
            List.getElem?_eq_getElem hi, List.getD_eq_getElem?_getD,
            List.getElem?_eq_getElem hi]
          rfl
        · rw [ih1 j hlt2 hjt, stepRow_grid_ne E gw srcI dstI i st j (by omega)]
      · intro j hj
        rw [ih2 j (by omega), stepRow_grid_ne E gw srcI dstI i st j (by omega)]
      · intro j hj
        rw [ih3 j hj, stepRow_grid_ne E gw srcI dstI i st j (by omega)]
      · rw [ih5, hback]
      · rw [ih6, hback]

/-- If the external flag is cleared for every check index beyond `k`, no
row with index beyond `k` is ever modified: the loop re-reads the flag at
each row boundary, so a step can only happen at an index where the flag is
still set, which is at most `k`. -/
theorem runFrom_stopped_untouched (E : Bool) (gw : List Char → Option (List Char))
    (e : Nat → Bool) (srcI dstI k : Nat)
    (h2 : ∀ j, k < j → e j = false) :
    ∀ fuel i (st : RunState) j, k < j →
      (runFrom E gw e srcI dstI i fuel st).grid[j]? = st.grid[j]? := by
  intro fuel
  induction fuel with
  | zero => intro i st j _; rfl
  | succ n ih =>
    intro i st j hj
    by_cases hi : i < st.grid.length
    · by_cases hf : (e i && st.internal) = true
      · have hei : e i = true := by
          rw [Bool.and_eq_true] at hf
          exact hf.1
        have hik : i ≤ k := by
          by_contra hik
          rw [h2 i (by omega)] at hei
          exact Bool.false_ne_true hei
        have h0 : runFrom E gw e srcI dstI i (n + 1) st =
            runFrom E gw e srcI dstI (i + 1) n (stepRow E gw srcI dstI i st) := by
          conv_lhs => unfold runFrom
          rw [if_pos hi, if_pos hf]
        rw [h0, ih (i + 1) (stepRow E gw srcI dstI i st) j hj,
          stepRow_grid_ne E gw srcI dstI i st j (by omega)]
      · have h0 : runFrom E gw e srcI dstI i (n + 1) st = st := by
          conv_lhs => unfold runFrom
          rw [if_pos hi, if_neg hf]
        rw [h0]
    · have h0 : runFrom E gw e srcI dstI i (n + 1) st = st := by
        conv_lhs => unfold runFrom
        rw [if_neg hi]
      rw [h0]

/-- With a stop-shaped flag (set through check `k`, cleared after), the
interrupted run agrees with the uninterrupted run on every row up to `k`:
both runs take identical steps while the flag is set, and the steps the
uninterrupted run takes afterwards only touch rows beyond `k`. -/
theorem runFrom_parallel (E : Bool) (gw : List Char → Option (List Char))
    (e : Nat → Bool) (srcI dstI k : Nat)
    (h1 : ∀ j, j ≤ k → e j = true) (h2 : ∀ j, k < j → e j = false) :
    ∀ fuel i (st : RunState) j, j ≤ k →
      (runFrom E gw e srcI dstI i fuel st).grid[j]? =
        (runFrom E gw (fun _ => true) srcI dstI i fuel st).grid[j]? := by
  intro fuel
  induction fuel with
  | zero => intro i st j _; rfl
  | succ n ih =>
    intro i st j hj
    by_cases hi : i < st.grid.length
    · by_cases hint : st.internal = true
      · by_cases hik : i ≤ k
        · have hf : (e i && st.internal) = true := by
            rw [h1 i hik, hint]; rfl
          have hft : ((fun _ : Nat => true) i && st.internal) = true := by
            rw [hint]; rfl
          have h0 : runFrom E gw e srcI dstI i (n + 1) st =
              runFrom E gw e srcI dstI (i + 1) n (stepRow E gw srcI dstI i st) := by
            conv_lhs => unfold runFrom
            rw [if_pos hi, if_pos hf]
          have h0t : runFrom E gw (fun _ => true) srcI dstI i (n + 1) st =
              runFrom E gw (fun _ => true) srcI dstI (i + 1) n
                (stepRow E gw srcI dstI i st) := by
            conv_lhs => unfold runFrom
            rw [if_pos hi, if_pos hft]
          rw [h0, h0t]
          exact ih (i + 1) (stepRow E gw srcI dstI i st) j hj
        · have hf : ¬ ((e i && st.internal) = true) := by
            rw [h2 i (by omega), Bool.false_and]
            exact Bool.false_ne_true
          have hft : ((fun _ : Nat => true) i && st.internal) = true := by
            rw [hint]; rfl
          have h0 : runFrom E gw e srcI dstI i (n + 1) st = st := by
            conv_lhs => unfold runFrom
            rw [if_pos hi, if_neg hf]
          have h0t : runFrom E gw (fun _ => true) srcI dstI i (n + 1) st =
              runFrom E gw (fun _ => true) srcI dstI (i + 1) n
                (stepRow E gw srcI dstI i st) := by
            conv_lhs => unfold runFrom
            rw [if_pos hi, if_pos hft]
          rw [h0, h0t,
            runFrom_grid_lt E gw (fun _ => true) srcI dstI n (i + 1)
              (stepRow E gw srcI dstI i st) j (by omega),
            stepRow_grid_ne E gw srcI dstI i st j (by omega)]
      · have hint2 : st.internal = false := Bool.eq_false_iff.mpr hint
        have hf : ¬ ((e i && st.internal) = true) := by
          rw [hint2, Bool.and_false]
          exact Bool.false_ne_true
        have hft : ¬ (((fun _ : Nat => true) i && st.internal) = true) := by
          rw [hint2, Bool.and_false]
          exact Bool.false_ne_true
        have h0 : runFrom E gw e srcI dstI i (n + 1) st = st := by
          conv_lhs => unfold runFrom
          rw [if_pos hi, if_neg hf]
        have h0t : runFrom E gw (fun _ => true) srcI dstI i (n + 1) st = st := by
          conv_lhs => unfold runFrom
          rw [if_pos hi, if_neg hft]
        rw [h0, h0t]
    · have h0 : runFrom E gw e srcI dstI i (n + 1) st = st := by
        conv_lhs => unfold runFrom
        rw [if_neg hi]
      have h0t : runFrom E gw (fun _ => true) srcI dstI i (n + 1) st = st := by
        conv_lhs => unfold runFrom
        rw [if_neg hi]
      rw [h0, h0t]

theorem rec_mem_recsOfRows (E : Bool) (gw : List Char → Option (List Char))
    (srcI : Nat) (rows : List (List JSVal)) (row : List JSVal)
    (hmem : row ∈ rows) (ht : truthy (rowGet row srcI) = true) :
    (valueText (rowGet row srcI),
      (onSendF E gw (toInput (rowGet row srcI))).result.getD []) ∈
      recsOfRows E gw srcI rows := by
  induction rows with
  | nil => cases hmem
  | cons r rs ih =>
    rw [recsOfRows]
    rcases List.mem_cons.mp hmem with rfl | hmem2
    · apply List.mem_append_left
      unfold rowRecs
      rw [if_pos ht]
      exact List.mem_singleton.mpr rfl
    · exact List.mem_append_right _ (ih hmem2)

/-- C5 (counterexample): a source cell holding the number `0` is non-empty,
yet the driver leaves the grid unchanged and appends no translation record:
the guard `if (value)` uses JS truthiness, and `0` is falsy.  Grid:
a header row and one data row whose column-index-1 cell is the number `0`;
source column index 1, destination index 2, start row 2. -/
theorem driver_numeric_zero_skipped_cex :
    rowGet (([[JSVal.str ['h']], [JSVal.undefined, JSVal.num 0]].getD 1 []) ) 1 = JSVal.num 0
    ∧ (JSVal.num 0 ≠ JSVal.undefined ∧ JSVal.num 0 ≠ JSVal.str [])
    ∧ (runDriver true (fun _ => none) (fun _ => true) 1 2 2
        [[JSVal.str ['h']], [JSVal.undefined, JSVal.num 0]]).recs = []
    ∧ (runDriver true (fun _ => none) (fun _ => true) 1 2 2
        [[JSVal.str ['h']], [JSVal.undefined, JSVal.num 0]]).grid
        = [[JSVal.str ['h']], [JSVal.undefined, JSVal.num 0]] := by
  refine ⟨by decide, ⟨by decide, by decide⟩, by decide, by decide⟩

/-- C5 (amended): in an error-free run with no stop signal, for every row
from the start row on, the driver writes the destination cell and appends
a translation record exactly when the source cell is truthy (a non-empty
string or a non-zero number); rows with a falsy source cell — `undefined`,
the empty string, but also the number `0` — are left unchanged, as are all
rows before the start row. -/
theorem driver_writes_iff_truthy (E : Bool) (gw : List Char → Option (List Char))
    (srcI dstI startRow : Nat) (grid : List (List JSVal))
    (hclean : ∀ j, j < grid.length →
      rowClears E gw srcI (grid.getD j []) = false) :
    (∀ j row, startRow - 1 ≤ j → grid[j]? = some row →
      ((truthy (rowGet row srcI) = true →
        (runDriver E gw (fun _ => true) srcI dstI startRow grid).grid[j]? =
          some (rowSet row dstI
            (.str ((onSendF E gw (toInput (rowGet row srcI))).result.getD [])))
        ∧ (valueText (rowGet row srcI),
            (onSendF E gw (toInput (rowGet row srcI))).result.getD []) ∈
            (runDriver E gw (fun _ => true) srcI dstI startRow grid).recs)
       ∧ (truthy (rowGet row srcI) = false →
        (runDriver E gw (fun _ => true) srcI dstI startRow grid).grid[j]? =
          some row)))
    ∧ (∀ j, j < startRow - 1 →
        (runDriver E gw (fun _ => true) srcI dstI startRow grid).grid[j]? =
          grid[j]?) := by
  have hD : runDriver E gw (fun _ => true) srcI dstI startRow grid =
      runFrom E gw (fun _ => true) srcI dstI (startRow - 1) grid.length
        ⟨grid, [], true, none, 0⟩ := rfl
  obtain ⟨h1, h2, h3, _, _⟩ := runFrom_clean E gw srcI dstI grid.length
    (startRow - 1) ⟨grid, [], true, none, 0⟩ rfl
    (by show grid.length ≤ startRow - 1 + grid.length; omega)
    (fun j hj _ => hclean j hj)
  constructor
  · intro j row hsj hrow
    have hmap : (runDriver E gw (fun _ => true) srcI dstI startRow grid).grid[j]? =
        some (processRow E gw srcI dstI row) := by
      rw [hD, h1 j hsj]
      show (grid[j]?).map _ = _
      rw [hrow]
      rfl
    constructor
    · intro ht
      constructor
      · rw [hmap]
        unfold processRow
        rw [if_pos ht]
      · have hmem : row ∈ grid.drop (startRow - 1) := by
          apply List.mem_iff_getElem?.mpr
          refine ⟨j - (startRow - 1), ?_⟩
          rw [List.getElem?_drop]
          rw [show startRow - 1 + (j - (startRow - 1)) = j by omega]
          exact hrow
        rw [hD, h3]
        show _ ∈ [] ++ recsOfRows E gw srcI (grid.drop (startRow - 1))
        rw [List.nil_append]
        exact rec_mem_recsOfRows E gw srcI _ row hmem ht
    · intro ht
      rw [hmap]
      unfold processRow
      rw [if_neg (by rw [ht]; exact Bool.false_ne_true)]
  · intro j hj
    rw [hD]
    exact h2 j hj

/-- Witness for the amended C5: a 2-row grid whose data row holds the
numeric string `"12"`; the destination cell is written and a record is
appended, and the header row is untouched. -/
theorem driver_writes_iff_truthy_witness :
    (∀ j, j < ([[JSVal.str ['h']], [JSVal.undefined, JSVal.str ['1', '2']]] :
        List (List JSVal)).length →
      rowClears true (fun p => some p) 1
        ([[JSVal.str ['h']], [JSVal.undefined, JSVal.str ['1', '2']]].getD j []) = false)
    ∧ truthy (rowGet [JSVal.undefined, JSVal.str ['1', '2']] 1) = true
    ∧ (runDriver true (fun p => some p) (fun _ => true) 1 2 2
        [[JSVal.str ['h']], [JSVal.undefined, JSVal.str ['1', '2']]]).grid[1]? =
        some (rowSet [JSVal.undefined, JSVal.str ['1', '2']] 2
          (.str ((onSendF true (fun p => some p)
            (toInput (rowGet [JSVal.undefined, JSVal.str ['1', '2']] 1))).result.getD []))) := by
  refine ⟨by decide, by decide, ?_⟩
  exact (((driver_writes_iff_truthy true (fun p => some p) 1 2 2
    [[JSVal.str ['h']], [JSVal.undefined, JSVal.str ['1', '2']]] (by decide)).1
    1 [JSVal.undefined, JSVal.str ['1', '2']] (by decide) (by decide)).1 (by decide)).1

/-- C6: if the stop signal clears the flag only after row `k`'s check
(the flag reads `true` at every check up to `k` and `false` beyond), then
no row after `k` is ever written — all later rows keep their original
content in the grid that is serialized to the output file — while every
row up to `k` is exactly as in an uninterrupted run.  The flag function is
consulted at each row boundary, modelling the re-read of the shared ref
rather than a value captured at loop start. -/
theorem driver_stop_after_row_k (E : Bool) (gw : List Char → Option (List Char))
    (e : Nat → Bool) (srcI dstI startRow k : Nat) (grid : List (List JSVal))
    (h1 : ∀ j, j ≤ k → e j = true) (h2 : ∀ j, k < j → e j = false) :
    (∀ j, k < j →
      (runDriver E gw e srcI dstI startRow grid).grid[j]? = grid[j]?)
    ∧ (∀ j, j ≤ k →
      (runDriver E gw e srcI dstI startRow grid).grid[j]? =
        (runDriver E gw (fun _ => true) srcI dstI startRow grid).grid[j]?) := by
  constructor
  · intro j hj
    exact runFrom_stopped_untouched E gw e srcI dstI k h2
      grid.length (startRow - 1) ⟨grid, [], true, none, 0⟩ j hj
  · intro j hj
    exact runFrom_parallel E gw e srcI dstI k h1 h2
      grid.length (startRow - 1) ⟨grid, [], true, none, 0⟩ j hj

/-- Witness for C6: stop after check 2 — row 4 keeps its original content
while row 2 agrees with the uninterrupted run. -/
theorem driver_stop_after_row_k_witness :
    (runDriver true (fun p => some p) (fun j => decide (j ≤ 2)) 1 2 2
      stopGridW).grid[4]? = stopGridW[4]?
    ∧ (runDriver true (fun p => some p) (fun j => decide (j ≤ 2)) 1 2 2
      stopGridW).grid[2]? =
      (runDriver true (fun p => some p) (fun _ => true) 1 2 2
        stopGridW).grid[2]? := by
  have h1 : ∀ j, j ≤ 2 → (fun j => decide (j ≤ 2)) j = true :=
    fun j hj => decide_eq_true hj
  have h2 : ∀ j, 2 < j → (fun j => decide (j ≤ 2)) j = false :=
    fun j hj => decide_eq_false (by omega)
  exact ⟨(driver_stop_after_row_k true (fun p => some p) (fun j => decide (j ≤ 2))
      1 2 2 2 stopGridW h1 h2).1 4 (by omega),
    (driver_stop_after_row_k true (fun p => some p) (fun j => decide (j ≤ 2))
      1 2 2 2 stopGridW h1 h2).2 2 (by omega)⟩

/-- C7: if row `t` is the first row whose cell raises an error (its
`onSend` call clears the generation flag and surfaces a message), the run
ends with the flag cleared and an error surfaced, rows after `t` are left
untouched, rows processed before `t` keep their translations in the output
grid, and rows before the start row are untouched. -/
theorem driver_gateway_error_aborts (E : Bool)
    (gw : List Char → Option (List Char))
    (srcI dstI startRow : Nat) (grid : List (List JSVal)) (t : Nat)
    (ht1 : startRow - 1 ≤ t) (ht2 : t < grid.length)
    (hok : ∀ j, j < t → startRow - 1 ≤ j →
      rowClears E gw srcI (grid.getD j []) = false)
    (herr : rowClears E gw srcI (grid.getD t []) = true) :
    (runDriver E gw (fun _ => true) srcI dstI startRow grid).internal = false
    ∧ (runDriver E gw (fun _ => true) srcI dstI startRow grid).errMsg.isSome = true
    ∧ (∀ j, t < j →
        (runDriver E gw (fun _ => true) srcI dstI startRow grid).grid[j]? = grid[j]?)
    ∧ (∀ j, startRow - 1 ≤ j → j ≤ t →
        (runDriver E gw (fun _ => true) srcI dstI startRow grid).grid[j]? =
          (grid[j]?).map (processRow E gw srcI dstI))
    ∧ (∀ j, j < startRow - 1 →
        (runDriver E gw (fun _ => true) srcI dstI startRow grid).grid[j]? =
          grid[j]?) := by
  obtain ⟨h1, h2, h3, h4, h5, _⟩ := runFrom_err E gw srcI dstI grid.length
    (startRow - 1) ⟨grid, [], true, none, 0⟩ t rfl
    (by show grid.length ≤ startRow - 1 + grid.length; omega) ht1 ht2
    (fun j hjt hsj => hok j hjt hsj) herr
  refine ⟨h4, ?_, h3, h1, h2⟩
  show (runFrom E gw (fun _ => true) srcI dstI (startRow - 1) grid.length
    ⟨grid, [], true, none, 0⟩).errMsg.isSome = true
  rw [h5]
  have h7 := herr
  unfold rowClears at h7
  rw [Bool.and_eq_true] at h7
  exact h7.2

/-- Witness for C7: a 3-row grid; the gateway throws on every call, so the
cell `"hello"` of row 1 fails; row 2 keeps its original content and the
error is surfaced with the flag cleared. -/
theorem driver_gateway_error_aborts_witness :
    (runDriver true (fun _ => none) (fun _ => true) 1 2 2
      [[JSVal.str ['h']], [JSVal.undefined, JSVal.str ['h', 'e', 'l', 'l', 'o']],
       [JSVal.undefined, JSVal.str ['g', 'o']]]).internal = false
    ∧ (runDriver true (fun _ => none) (fun _ => true) 1 2 2
      [[JSVal.str ['h']], [JSVal.undefined, JSVal.str ['h', 'e', 'l', 'l', 'o']],
       [JSVal.undefined, JSVal.str ['g', 'o']]]).errMsg.isSome = true
    ∧ (runDriver true (fun _ => none) (fun _ => true) 1 2 2
      [[JSVal.str ['h']], [JSVal.undefined, JSVal.str ['h', 'e', 'l', 'l', 'o']],
       [JSVal.undefined, JSVal.str ['g', 'o']]]).grid[2]? =
      some [JSVal.undefined, JSVal.str ['g', 'o']] := by
  obtain ⟨hA, hB, hC, _, _⟩ := driver_gateway_error_aborts true (fun _ => none)
    1 2 2
    [[JSVal.str ['h']], [JSVal.undefined, JSVal.str ['h', 'e', 'l', 'l', 'o']],
     [JSVal.undefined, JSVal.str ['g', 'o']]] 1
    (by omega) (by decide) (by intro j hj1 hj2; omega) (by decide)
  exact ⟨hA, hB, hC 2 (by omega)⟩

theorem onSendF_none_errMsg (E : Bool) (gw : List Char → Option (List Char))
    (v : JSVal) (ht : truthy v = true)
    (hres : (onSendF E gw (toInput v)).result = none) :
    (onSendF E gw (toInput v)).errMsg.isSome = true := by
  cases v with
  | undefined => exact absurd ht (by decide)
  | num n => exact absurd hres (by simp [toInput, onSendF])
  | str s =>
    have hs : ¬ s = [] := by
      intro h
      rw [h] at ht
      exact Bool.false_ne_true ht
    show (onSendF E gw (.str s)).errMsg.isSome = true
    have hres2 : (onSendF E gw (.str s)).result = none := hres
    simp only [onSendF] at hres2 ⊢
    rw [if_neg hs] at hres2 ⊢
    by_cases h1 : jsIsNumericString s = true
    · rw [if_pos h1] at hres2; exact absurd hres2 (by simp)
    · rw [if_neg h1] at hres2 ⊢
      by_cases h2 : onlySymbolClass s = true
      · rw [if_pos h2] at hres2; exact absurd hres2 (by simp)
      · rw [if_neg h2] at hres2 ⊢
        by_cases h3 : (!hasVowel s) = true
        · rw [if_pos h3] at hres2; exact absurd hres2 (by simp)
        · rw [if_neg h3] at hres2 ⊢
          by_cases h4 : (!E) = true
          · rw [if_pos h4]; rfl
          · rw [if_neg h4] at hres2 ⊢
            rcases hA : assemble gw (splitNl s) with ⟨o, c⟩
            rw [hA] at hres2
            cases o with
            | none => rfl
            | some m => exact absurd hres2 (by simp)

/-- C9: if a truthy cell's translation attempt yields no output (`onSend`
returns `undefined` because the gateway threw or the engine failed to
load), the driver still writes the destination cell — overwriting its
previous content with the empty string — and still appends a translation
record whose output text is empty. -/
theorem driver_failed_cell_writes_empty (E : Bool)
    (gw : List Char → Option (List Char))
    (srcI dstI startRow : Nat) (grid : List (List JSVal)) (t : Nat)
    (ht1 : startRow - 1 ≤ t) (ht2 : t < grid.length)
    (hok : ∀ j, j < t → startRow - 1 ≤ j →
      rowClears E gw srcI (grid.getD j []) = false)
    (htr : truthy (rowGet (grid.getD t []) srcI) = true)
    (hres : (onSendF E gw (toInput (rowGet (grid.getD t []) srcI))).result = none) :
    (runDriver E gw (fun _ => true) srcI dstI startRow grid).grid[t]? =
      some (rowSet (grid.getD t []) dstI (.str []))
    ∧ (runDriver E gw (fun _ => true) srcI dstI startRow grid).recs.getLast? =
      some (valueText (rowGet (grid.getD t []) srcI), []) := by
  have herr : rowClears E gw srcI (grid.getD t []) = true := by
    unfold rowClears
    rw [htr, onSendF_none_errMsg E gw (rowGet (grid.getD t []) srcI) htr hres]
    rfl
  obtain ⟨h1, _, _, _, _, h6⟩ := runFrom_err E gw srcI dstI grid.length
    (startRow - 1) ⟨grid, [], true, none, 0⟩ t rfl
    (by show grid.length ≤ startRow - 1 + grid.length; omega) ht1 ht2
    (fun j hjt hsj => hok j hjt hsj) herr
  have hgd : grid.getD t [] = grid[t] := by
    rw [List.getD_eq_getElem?_getD, List.getElem?_eq_getElem ht2]
    rfl
  constructor
  · have h7 := h1 t ht1 (le_refl t)
    show (runFrom E gw (fun _ => true) srcI dstI (startRow - 1) grid.length
      ⟨grid, [], true, none, 0⟩).grid[t]? = _
    rw [h7]
    show (grid[t]?).map _ = _
    rw [List.getElem?_eq_getElem ht2]
    show some (processRow E gw srcI dstI grid[t]) = _
    unfold processRow
    rw [← hgd, if_pos htr, hres]
    rfl
  · show (runFrom E gw (fun _ => true) srcI dstI (startRow - 1) grid.length
      ⟨grid, [], true, none, 0⟩).recs.getLast? = _
    rw [h6, hres]
    rfl

/-- Witness for C9: engine loading fails (`engineOk = false`), the cell
`"bonjour"` yields no output, and the destination cell previously holding
`"OLD"` is overwritten with the empty string; the appended record has
empty output text. -/
theorem driver_failed_cell_writes_empty_witness :
    (runDriver false (fun p => some p) (fun _ => true) 1 2 2
      [[JSVal.str ['h']],
       [JSVal.undefined, JSVal.str ['b', 'o', 'n', 'j', 'o', 'u', 'r'],
        JSVal.str ['O', 'L', 'D']]]).grid[1]? =
      some (rowSet [JSVal.undefined, JSVal.str ['b', 'o', 'n', 'j', 'o', 'u', 'r'],
        JSVal.str ['O', 'L', 'D']] 2 (.str []))
    ∧ (runDriver false (fun p => some p) (fun _ => true) 1 2 2
      [[JSVal.str ['h']],
       [JSVal.undefined, JSVal.str ['b', 'o', 'n', 'j', 'o', 'u', 'r'],
        JSVal.str ['O', 'L', 'D']]]).recs.getLast? =
      some (['b', 'o', 'n', 'j', 'o', 'u', 'r'], []) := by
  obtain ⟨hA, hB⟩ := driver_failed_cell_writes_empty false (fun p => some p)
    1 2 2
    [[JSVal.str ['h']],
     [JSVal.undefined, JSVal.str ['b', 'o', 'n', 'j', 'o', 'u', 'r'],
      JSVal.str ['O', 'L', 'D']]] 1
    (by omega) (by decide) (by intro j hj1 hj2; omega) (by decide) (by decide)
  exact ⟨hA, hB⟩

/-! ## Translation-record sequence numbers (C8) -/

theorem runAdds_nextId (calls : List (List Char × List Char)) :
    ∀ st : TState, (runAdds calls st).nextId = st.nextId + calls.length := by
  induction calls with
  | nil => intro st; rfl
  | cons c cs ih =>
    intro st
    have h : runAdds (c :: cs) st = runAdds cs (addTranslation c.1 c.2 st) := rfl
    rw [h, ih]
    show st.nextId + 1 + cs.length = st.nextId + (c :: cs).length
    rw [List.length_cons]
    omega

theorem runAdds_append (a b : List (List Char × List Char)) :
    ∀ st, runAdds (a ++ b) st = runAdds b (runAdds a st) := by
  induction a with
  | nil => intro st; rfl
  | cons c cs ih =>
    intro st
    show runAdds (cs ++ b) (addTranslation c.1 c.2 st) = _
    rw [ih]
    rfl

theorem assignedId_eq (st : TState) (calls : List (List Char × List Char))
    (j : Nat) (hj : j ≤ calls.length) :
    assignedId st calls j = st.nextId + j := by
  unfold assignedId
  rw [runAdds_nextId, List.length_take]
  omega

theorem runAdds_head_id (st : TState) (calls : List (List Char × List Char))
    (j : Nat) (hj : j < calls.length) :
    (runAdds (calls.take (j + 1)) st).translations.head?.map TRec.id
      = some (st.nextId + j) := by
  have htake : calls.take (j + 1) = calls.take j ++ [calls[j]] := by
    rw [List.take_succ, List.getElem?_eq_getElem hj]
    rfl
  have hid : (runAdds (calls.take j) st).nextId = st.nextId + j := by
    rw [runAdds_nextId, List.length_take]
    omega
  rw [htake, runAdds_append]
  show ((TRec.mk (calls[j]).1 (calls[j]).2 (runAdds (calls.take j) st).nextId ::
    (runAdds (calls.take j) st).translations).take 40).head?.map TRec.id = _
  rw [show (40 : Nat) = 39 + 1 from rfl, List.take_succ_cons, List.head?_cons]
  rw [hid]
  rfl

/-- C8 (counterexample): `nextId` is a local `let nextId = 0` in the
component body, re-initialized on every render; a run started after a
re-render therefore numbers its records again from `0` while the record
list persists.  Concretely: a first closure appends two records (ids 0
and 1), a fresh closure with the persisted list appends one more record —
and that later record carries id `0`, which is not greater than the
earlier record's id `1`. -/
theorem addTranslation_crossrun_reset_cex :
    (runAdds [(['e'], ['f'])]
      ⟨(runAdds [(['a'], ['b']), (['c'], ['d'])] ⟨[], 0⟩).translations, 0⟩
      ).translations.head?.map TRec.id = some 0
    ∧ (runAdds [(['a'], ['b']), (['c'], ['d'])]
        ⟨[], 0⟩).translations.head?.map TRec.id = some 1
    ∧ ¬ ((0 : Nat) > 1) := by
  refine ⟨by decide, by decide, by decide⟩

/-- C8 (amended): within a single closure instance (one file-upload run),
sequence numbers strictly increase: the `j`-th `addTranslation` call
attaches id `nextId₀ + j`, so a later call's id is strictly greater than
an earlier call's; numbering restarts from `0` when a new render creates a
fresh closure. -/
theorem addTranslation_ids_increase_within_run (st : TState)
    (calls : List (List Char × List Char)) (j1 j2 : Nat)
    (h12 : j1 < j2) (h2 : j2 < calls.length) :
    assignedId st calls j1 < assignedId st calls j2
    ∧ (runAdds (calls.take (j1 + 1)) st).translations.head?.map TRec.id
        = some (assignedId st calls j1)
    ∧ (runAdds (calls.take (j2 + 1)) st).translations.head?.map TRec.id
        = some (assignedId st calls j2) := by
  refine ⟨?_, ?_, ?_⟩
  · rw [assignedId_eq st calls j1 (by omega), assignedId_eq st calls j2 (by omega)]
    omega
  · rw [assignedId_eq st calls j1 (by omega)]
    exact runAdds_head_id st calls j1 (by omega)
  · rw [assignedId_eq st calls j2 (by omega)]
    exact runAdds_head_id st calls j2 h2

/-- Witness for the amended C8: two calls in one closure, ids 0 then 1. -/
theorem addTranslation_ids_increase_within_run_witness :
    ((0 : Nat) < 1 ∧ 1 < ([(['a'], ['b']), (['c'], ['d'])] :
      List (List Char × List Char)).length)
    ∧ assignedId ⟨[], 0⟩ [(['a'], ['b']), (['c'], ['d'])] 0 <
        assignedId ⟨[], 0⟩ [(['a'], ['b']), (['c'], ['d'])] 1 := by
  refine ⟨⟨by decide, by decide⟩, ?_⟩
  exact (addTranslation_ids_increase_within_run ⟨[], 0⟩
    [(['a'], ['b']), (['c'], ['d'])] 0 1 (by decide) (by decide)).1

end CroissantXl
